import Mathlib

/-!
Verification of the deployment orchestrator (`deploy.py`).

The development shallowly embeds the program: external command outputs
(`git rev-parse`, `git merge-base`, `git diff`, `git ls-files`) and the
build script's exit status are inputs; the run is modelled as the list of
observable actions it performs (archiving the diff, syncing, running the
build script, notifying) together with its outcome.  Byte strings are
modelled as Lean `String`s whose characters are the byte values.
-/

set_option maxRecDepth 100000

namespace Deployer

/-! ### 32-bit arithmetic and SHA-1 (hashlib.sha1) -/

def w32 (n : Nat) : Nat := n % 4294967296

def rotl (k n : Nat) : Nat := w32 ((n <<< k) ||| (n >>> (32 - k)))

def hexDigit (n : Nat) : Char := if n < 10 then Char.ofNat (48 + n) else Char.ofNat (87 + n)

def hex2 (n : Nat) : List Char := [hexDigit (n / 16 % 16), hexDigit (n % 16)]

def utf8EncodeChar (c : Char) : List Nat :=
  let n := c.toNat
  if n < 128 then [n]
  else if n < 2048 then [192 ||| (n >>> 6), 128 ||| (n &&& 63)]
  else if n < 65536 then
    [224 ||| (n >>> 12), 128 ||| ((n >>> 6) &&& 63), 128 ||| (n &&& 63)]
  else
    [240 ||| (n >>> 18), 128 ||| ((n >>> 12) &&& 63), 128 ||| ((n >>> 6) &&& 63), 128 ||| (n &&& 63)]

def utf8Encode (s : String) : List Nat := s.data.flatMap utf8EncodeChar

def be64 (n : Nat) : List Nat :=
  [n >>> 56 % 256, n >>> 48 % 256, n >>> 40 % 256, n >>> 32 % 256,
   n >>> 24 % 256, n >>> 16 % 256, n >>> 8 % 256, n % 256]

def be32 (n : Nat) : List Nat :=
  [n >>> 24 % 256, n >>> 16 % 256, n >>> 8 % 256, n % 256]

def sha1pad (msg : List Nat) : List Nat :=
  let len := msg.length
  let z := (55 + 64 - len % 64) % 64
  msg ++ [128] ++ List.replicate z 0 ++ be64 (8 * len)

/-- Split into 64-byte chunks: `acc` holds the current chunk reversed, `n` its length. -/
def chunks64go : List Nat → List Nat → Nat → List (List Nat)
  | [], acc, _ => if acc.isEmpty then [] else [acc.reverse]
  | a :: rest, acc, n =>
    if n = 63 then (a :: acc).reverse :: chunks64go rest [] 0
    else chunks64go rest (a :: acc) (n + 1)

def chunks64 (l : List Nat) : List (List Nat) := chunks64go l [] 0

def words16 : List Nat → List Nat
  | b0 :: b1 :: b2 :: b3 :: rest => (((b0 * 256 + b1) * 256 + b2) * 256 + b3) :: words16 rest
  | _ => []

/-- One step of the SHA-1 message schedule: `acc` holds all words so far,
most recent first; the new word is `rotl 1 (w[i-3] ^^^ w[i-8] ^^^ w[i-14] ^^^ w[i-16])`. -/
def sha1extendStep (acc : List Nat) : Nat :=
  rotl 1 (((acc.getD 2 0 ^^^ acc.getD 7 0) ^^^ acc.getD 13 0) ^^^ acc.getD 15 0)

def sha1extend : Nat → List Nat → List Nat
  | 0, acc => acc.reverse
  | n + 1, acc => sha1extend n (sha1extendStep acc :: acc)

def sha1schedule (ws : List Nat) : List Nat := sha1extend 64 ws.reverse

abbrev H5 := Nat × Nat × Nat × Nat × Nat

def sha1f (i b c d : Nat) : Nat :=
  if i < 20 then (b &&& c) ||| ((4294967295 - b) &&& d)
  else if i < 40 then (b ^^^ c) ^^^ d
  else if i < 60 then ((b &&& c) ||| (b &&& d)) ||| (c &&& d)
  else (b ^^^ c) ^^^ d

def sha1k (i : Nat) : Nat :=
  if i < 20 then 1518500249
  else if i < 40 then 1859775393
  else if i < 60 then 2400959708
  else 3395469782

def sha1round (i : Nat) (st : H5) (wi : Nat) : H5 :=
  let (a, b, c, d, e) := st
  (w32 (rotl 5 a + sha1f i b c d + e + sha1k i + wi), a, rotl 30 b, c, d)

def sha1rounds : Nat → H5 → List Nat → H5
  | _, st, [] => st
  | i, st, wi :: rest => sha1rounds (i + 1) (sha1round i st wi) rest

def sha1compress (h : H5) (block : List Nat) : H5 :=
  let (a, b, c, d, e) := sha1rounds 0 h (sha1schedule (words16 block))
  let (h0, h1, h2, h3, h4) := h
  (w32 (h0 + a), w32 (h1 + b), w32 (h2 + c), w32 (h3 + d), w32 (h4 + e))

def sha1init : H5 := (1732584193, 4023233417, 2562383102, 271733878, 3285377520)

def sha1digest (msg : List Nat) : List Nat :=
  let (h0, h1, h2, h3, h4) := (chunks64 (sha1pad msg)).foldl sha1compress sha1init
  be32 h0 ++ be32 h1 ++ be32 h2 ++ be32 h3 ++ be32 h4

/-- `hashlib.sha1(text.encode()).hexdigest()`. -/
def sha1hex (s : String) : String := String.mk ((sha1digest (utf8Encode s)).flatMap hex2)

/-! ### Python string primitives -/

def nlChar : Char := Char.ofNat 10

def squote : Char := Char.ofNat 39

def dquote : Char := Char.ofNat 34

def bslash : Char := Char.ofNat 92

def dollar : Char := Char.ofNat 36

def lbrace : Char := Char.ofNat 123

def rbrace : Char := Char.ofNat 125

def slash : Char := Char.ofNat 47

/-- The whitespace set of Python `str.strip` / `bytes.split`:
space, tab, newline, carriage return, vertical tab, form feed. -/
def isPyWs (c : Char) : Bool :=
  c = ' ' || c = Char.ofNat 9 || c = nlChar || c = Char.ofNat 13 ||
  c = Char.ofNat 11 || c = Char.ofNat 12

def pyStripList (l : List Char) : List Char :=
  ((l.dropWhile isPyWs).reverse.dropWhile isPyWs).reverse

/-- Python `s.strip()`. -/
def pyStrip (s : String) : String := String.mk (pyStripList s.data)

/-- Python `s.split()` (no separator): split on runs of whitespace, no empty tokens.
`cur` holds the pending token reversed. -/
def pySplitWsGo (cur : List Char) : List Char → List (List Char)
  | [] => if cur.isEmpty then [] else [cur.reverse]
  | a :: rest =>
    if isPyWs a then
      if cur.isEmpty then pySplitWsGo [] rest else cur.reverse :: pySplitWsGo [] rest
    else pySplitWsGo (a :: cur) rest

def pySplitWs (l : List Char) : List (List Char) := pySplitWsGo [] l

/-- Split on a single character; the result is nonempty and joining it back
with the character restores the input. -/
def splitOnChar (c : Char) : List Char → List (List Char)
  | [] => [[]]
  | a :: rest =>
    match splitOnChar c rest with
    | [] => [[]]
    | g :: gs => if a = c then [] :: g :: gs else (a :: g) :: gs

/-- Interleave a separator character between the pieces. -/
def joinWith (c : Char) : List (List Char) → List Char
  | [] => []
  | [p] => p
  | p :: q :: rest => p ++ c :: joinWith c (q :: rest)

/-- The escape of one byte inside Python `bytes.__repr__` with quote character `q`. -/
def pyByteEscape (q c : Char) : List Char :=
  if c = bslash then [bslash, bslash]
  else if c = q then [bslash, q]
  else if c = Char.ofNat 9 then [bslash, 't']
  else if c = nlChar then [bslash, 'n']
  else if c = Char.ofNat 13 then [bslash, 'r']
  else if c.toNat < 32 || 126 < c.toNat then bslash :: 'x' :: hex2 c.toNat
  else [c]

/-- Python `str(b)` for a bytes object `b`: the `repr`, `b'...'`-wrapped with escapes.
Single quotes are used unless the bytes contain a single quote but no double quote. -/
def pyReprBytes (s : String) : String :=
  let q := if s.data.contains squote && !(s.data.contains dquote) then dquote else squote
  String.mk ('b' :: q :: (s.data.flatMap (pyByteEscape q) ++ [q]))

/-! ### `string.Template.safe_substitute`

Modelled as a left-to-right scan (the semantics of `re.sub` over the
`Template` pattern): `$$` is an escaped dollar, `$name` and `${name}` with
`name` matching `[A-Za-z_][A-Za-z0-9_]*` are placeholders replaced when the
mapping binds `name` and left verbatim otherwise, and any other `$` is left
verbatim (never an error). -/

def isIdStart (c : Char) : Bool := c.isAlpha || c = '_'

def isIdChar (c : Char) : Bool := isIdStart c || c.isDigit

def lookupVar (m : List (String × String)) (k : String) : Option String :=
  match m.find? (fun p => p.1 = k) with
  | some p => some p.2
  | none => none

/-- Scanner state: `plain` text, just after a `$`, inside a `$name`
candidate, or inside a `${name}` candidate (`acc` holds the identifier
characters read so far, reversed). -/
inductive SubState where
  | plain : SubState
  | afterDollar : SubState
  | named : List Char → SubState
  | braced : List Char → SubState

/-- Output when a `$name` candidate ends: the value when bound, `$name` verbatim otherwise. -/
def namedOut (m : List (String × String)) (acc : List Char) : List Char :=
  match lookupVar m (String.mk acc.reverse) with
  | some v => v.data
  | none => dollar :: acc.reverse

/-- Output when a `${name}` candidate is closed by `}`: the value when bound,
`${name}` verbatim otherwise. -/
def bracedOut (m : List (String × String)) (acc : List Char) : List Char :=
  match lookupVar m (String.mk acc.reverse) with
  | some v => v.data
  | none => dollar :: lbrace :: (acc.reverse ++ [rbrace])

/-- Whether a character extends the `${...}` identifier being read. -/
def bracedCont (acc : List Char) (c : Char) : Bool :=
  match acc with
  | [] => isIdStart c
  | _ :: _ => isIdChar c

def safeSubRun (m : List (String × String)) : SubState → List Char → List Char
  | .plain, [] => []
  | .plain, c :: rest =>
    if c = dollar then safeSubRun m .afterDollar rest
    else c :: safeSubRun m .plain rest
  | .afterDollar, [] => [dollar]
  | .afterDollar, c :: rest =>
    if c = dollar then dollar :: safeSubRun m .plain rest
    else if c = lbrace then safeSubRun m (.braced []) rest
    else if isIdStart c then safeSubRun m (.named [c]) rest
    else dollar :: c :: safeSubRun m .plain rest
  | .named acc, [] => namedOut m acc
  | .named acc, c :: rest =>
    if isIdChar c then safeSubRun m (.named (c :: acc)) rest
    else if c = dollar then namedOut m acc ++ safeSubRun m .afterDollar rest
    else namedOut m acc ++ (c :: safeSubRun m .plain rest)
  | .braced acc, [] => dollar :: lbrace :: acc.reverse
  | .braced acc, c :: rest =>
    if bracedCont acc c then safeSubRun m (.braced (c :: acc)) rest
    else if c = rbrace && !acc.isEmpty then bracedOut m acc ++ safeSubRun m .plain rest
    else if c = dollar then (dollar :: lbrace :: acc.reverse) ++ safeSubRun m .afterDollar rest
    else (dollar :: lbrace :: acc.reverse) ++ (c :: safeSubRun m .plain rest)

/-- `Template(s).safe_substitute(m)`. -/
def safeSubstituteStr (m : List (String × String)) (s : String) : String :=
  String.mk (safeSubRun m .plain s.data)

/-! ### The deployment orchestrator (`deploy.py`) -/

/-- The configuration module `deploy_conf` as `deploy` consumes it.
`destSetting` and `diffdirSetting` model destination-path / diff-directory
settings a configuration object may carry; `deploy` never reads either.
`presyncHook` records whether the optional pre-sync hook attribute exists. -/
structure Conf where
  name : String
  top : String
  cmd : String
  includePatterns : List String
  excludePatterns : List String
  presyncHook : Bool
  prebuild : Option String
  postbuild : Option String
  destSetting : Option String
  diffdirSetting : Option String
deriving DecidableEq, Repr

/-- External-world inputs of one run: the home directory, the outputs of the
`git` invocations (raw stdout, bytes modelled as strings), and the exit
status of the build script.  The remaining external commands (ssh preflight,
mkdir, rsync, the notifier) are modelled as succeeding; no claim under
verification depends on their failure paths. -/
structure Env where
  home : String
  branchOut : String
  mainlineOut : String
  diffOut : String
  buildExit : Nat
deriving DecidableEq, Repr

/-- Observable actions of a run, in program order. -/
inductive Event where
  | savedDiff : String → List (String × String) → Event
  | synced : String → Event
  | ranBuild : String → Option String → Event
  | notified : String → String → Event
deriving DecidableEq, Repr

inductive DeployError where
  | buildFailed : Nat → DeployError
deriving DecidableEq, Repr

structure RunResult where
  events : List Event
  sha : String
  destRoot : String
  buildDir : String
  err : Option DeployError
deriving DecidableEq, Repr

def Event.isSave : Event → Bool
  | .savedDiff _ _ => true
  | _ => false

def Event.isBuildRun : Event → Bool
  | .ranBuild _ _ => true
  | _ => false

def Event.isNotice : Event → Bool
  | .notified _ _ => true
  | _ => false

/-- `get_diff(path, mainline)` (lines 47-55): the diff text starts with the
`master:` header line; when the diff is non-blank, Python `str()` of the
diff bytes is appended and the SHA-1 hex digest of the whole text is the
identifier, otherwise the mainline hash itself is. -/
def get_diff (mainline diffOut : String) : String × String :=
  let difftext := "master: " ++ mainline ++ "\n"
  if pyStrip diffOut ≠ "" then
    let difftext := difftext ++ pyReprBytes diffOut
    (sha1hex difftext, difftext)
  else
    (mainline, difftext)

/-- The text hashed for a non-blank diff: the `master:` header line followed
by the Python byte-repr of the diff body. -/
def canonicalDiffText (mainline diffOut : String) : String :=
  "master: " ++ mainline ++ "\n" ++ pyReprBytes diffOut

/-- `save_diff(diffdir, name, diff)` (lines 30-37): the archive path and the
tar members (one member `diff` holding the diff text). -/
def save_diff (diffdir name diff : String) : String × List (String × String) :=
  (diffdir ++ "/" ++ name ++ ".diff.tar.gz", [("diff", diff)])

/-- `pathlib` `/`: appends a relative right operand; an absolute right side replaces. -/
def pathJoin (a b : String) : String :=
  match b.data with
  | t :: _ => if t = slash then b else a ++ "/" ++ b
  | [] => a

/-- `Path.expanduser()` at character level: a path whose first component is
exactly `~` has it replaced by the home directory. -/
def expanduserL (home : List Char) : List Char → List Char
  | t :: rest =>
    if t = Char.ofNat 126 ∧ (rest = [] ∨ rest.head? = some slash) then home ++ rest
    else t :: rest
  | [] => []

def expanduser (home p : String) : String := String.mk (expanduserL home.data p.data)

/-- The build script statements as `deploy` assembles them (lines 100-110). -/
def buildScriptRawLines (conf : Conf) (cmd bdir : String) : List String :=
  let bs := ["set -e"]
  let bs := match conf.prebuild with
    | some p => bs ++ [p]
    | none => bs
  let bs := bs ++ ["echo \x27Building with \x60" ++ cmd ++ "\x60...\x27",
                   "pushd " ++ bdir, cmd, "popd"]
  match conf.postbuild with
  | some p => bs ++ [p]
  | none => bs

/-- The mapping handed to `safe_substitute` (lines 111-117); it always binds
all five placeholder names. -/
def deployMapping (dest bdir sha top branch : String) : List (String × String) :=
  [("DEST", dest), ("PREFIX", bdir), ("SHA", sha), ("TOP", top), ("BRANCH", branch)]

/-- The rendered build script: the joined statements after `safe_substitute`. -/
def renderScript (conf : Conf) (cmd dest bdir sha top branch : String) : String :=
  safeSubstituteStr (deployMapping dest bdir sha top branch)
    (String.intercalate "\n" (buildScriptRawLines conf cmd bdir))

/-- Python string slicing `s[:n]`. -/
def pyTake (s : String) (n : Nat) : String := String.mk (s.data.take n)

/-- `cmd = cmd or conf.cmd` (line 61): Python `or` falls back on falsy
(absent or empty) override. -/
def chosenCmd (cmdArg : Option String) (conf : Conf) : String :=
  match cmdArg with
  | some c => if c = "" then conf.cmd else c
  | none => conf.cmd

/-- The branch label (lines 73, 75-76): the stripped `rev-parse` output, with
`:{profile}` appended when a (truthy) profile is given. -/
def branchLabel (profile : Option String) (branchOut : String) : String :=
  let b := pyStrip branchOut
  match profile with
  | some p => if p = "" then b else b ++ ":" ++ p
  | none => b

/-- The deployment identifier `sha[:7]` (lines 77-78). -/
def runSha (env : Env) : String :=
  pyTake (get_diff (pyStrip env.mainlineOut) env.diffOut).1 7

/-- `dest = Path('~/var/Builds')/conf.name` (line 62). -/
def destRootOf (conf : Conf) : String := "~/var/Builds/" ++ conf.name

/-- `prefix = dest/'branches'/branch` (line 84). -/
def buildDirOf (conf : Conf) (profile : Option String) (env : Env) : String :=
  destRootOf conf ++ "/branches/" ++ branchLabel profile env.branchOut

/-- One run of `deploy(conf, host, cmd, profile, dry)` (lines 58-131). -/
def deployRun (conf : Conf) (host : Option String) (cmdArg : Option String)
    (profile : Option String) (dry : Bool) (env : Env) : RunResult :=
  let name := conf.name
  let top := conf.top
  let cmd := chosenCmd cmdArg conf
  let dest := destRootOf conf
  let branch := branchLabel profile env.branchOut
  let mainlineFull := pyStrip env.mainlineOut
  let sd := get_diff mainlineFull env.diffOut
  let diff := sd.2
  let sha := pyTake sd.1 7
  let arch := save_diff (env.home ++ "/Archive/diffs") (name ++ "-" ++ sha) diff
  let ev0 := [Event.savedDiff arch.1 arch.2]
  let bdir := dest ++ "/branches/" ++ branch
  match host with
  | some h =>
    let ev1 := ev0 ++ [Event.synced (h ++ ":" ++ pathJoin bdir top)]
    if dry then ⟨ev1, sha, dest, bdir, none⟩
    else
      let script := renderScript conf cmd dest bdir sha top branch
      let ev2 := ev1 ++ [Event.ranBuild script (some h)]
      if env.buildExit ≠ 0 then ⟨ev2, sha, dest, bdir, some (.buildFailed env.buildExit)⟩
      else
        ⟨ev2 ++ [Event.notified name ("Finished compiling " ++ name ++ " at " ++ sha ++ " on " ++ h)],
         sha, dest, bdir, none⟩
  | none =>
    let destL := expanduser env.home dest
    let bdirL := expanduser env.home bdir
    let ev1 := ev0 ++ [Event.synced (pathJoin bdirL top)]
    if dry then ⟨ev1, sha, destL, bdirL, none⟩
    else
      let script := renderScript conf cmd destL bdirL sha top branch
      let ev2 := ev1 ++ [Event.ranBuild script none]
      if env.buildExit ≠ 0 then ⟨ev2, sha, destL, bdirL, some (.buildFailed env.buildExit)⟩
      else
        ⟨ev2 ++ [Event.notified name ("Finished compiling " ++ name ++ " at " ++ sha)],
         sha, destL, bdirL, none⟩

/-- Process exit status: an uncaught error terminates the process nonzero. -/
def runExit (r : RunResult) : Nat :=
  match r.err with
  | none => 0
  | some _ => 1

/-! ### `git_rsync` (lines 19-27): the file list handed to rsync -/

def pathComps (p : List Char) : List (List Char) :=
  (splitOnChar slash p).filter (fun c => !(c.isEmpty || c = ['.']))

def joinComps : List (List Char) → List Char
  | [] => ['.']
  | c :: cs => joinWith slash (c :: cs)

/-- `Path(p).parents` for a relative path: the successive ancestors, ending at `.`. -/
def parentsOf (p : List Char) : List (List Char) :=
  ((List.range (pathComps p).length).reverse).map (fun k => joinComps ((pathComps p).take k))

/-- The entry list `git_rsync` builds: the whitespace-split tokens of the
`git ls-files` output, then one entry `f'{d}\n'` per parent directory (a
Python set; modelled as a deduplicated list, membership is what matters). -/
def gitRsyncEntries (lsOut : List Char) : List (List Char) :=
  let toks := pySplitWs lsOut
  toks ++ ((toks.flatMap parentsOf).dedup).map (fun d => d ++ [nlChar])

/-- The stdin handed to `rsync --include-from=-`: the entries joined with newlines. -/
def gitRsyncStdin (lsOut : List Char) : List Char :=
  joinWith nlChar (gitRsyncEntries lsOut)

/-- The path list rsync actually reads from that stdin: its nonempty lines. -/
def gitRsyncHandedPaths (lsOut : List Char) : List (List Char) :=
  (splitOnChar nlChar (gitRsyncStdin lsOut)).filter (fun l => !l.isEmpty)

/-- The statement list of §4.3 of the specification, written as the claim
words it: safety preamble, optional pre-build hook, announcement line,
directory change to the build prefix (under which the source was synced),
the build command, the directory change back, optional post-build hook. -/
def buildScriptSpecLines (conf : Conf) (cmd bdir : String) : List String :=
  ["set -e"] ++ conf.prebuild.toList
    ++ ["echo \x27Building with \x60" ++ cmd ++ "\x60...\x27",
        "pushd " ++ bdir, cmd, "popd"]
    ++ conf.postbuild.toList

/-! ### Concrete fixtures used by witnesses and counterexamples -/

def conf0 : Conf :=
  { name := "app", top := "src", cmd := "make", includePatterns := [],
    excludePatterns := [], presyncHook := false, prebuild := none,
    postbuild := none, destSetting := none, diffdirSetting := none }

def envOk : Env :=
  { home := "/home/u", branchOut := "dev\n", mainlineOut := "abc1234def\n",
    diffOut := "", buildExit := 0 }

def envFail : Env :=
  { home := "/home/u", branchOut := "dev\n", mainlineOut := "abc1234def\n",
    diffOut := "", buildExit := 2 }

def envDiff : Env :=
  { home := "/home/u", branchOut := "dev\n", mainlineOut := "abc1234def\n",
    diffOut := "x", buildExit := 0 }

def envWs : Env :=
  { home := "/home/u", branchOut := "dev\n",
    mainlineOut := "0000000000000000000000000000000000000000\n",
    diffOut := " ", buildExit := 0 }

def confCustom : Conf := { conf0 with diffdirSetting := some "/custom/diffs" }

def confDest : Conf := { conf0 with prebuild := some "${DEST}" }

/-! ### Shared lemmas -/

theorem strAppend_assoc (a b c : String) : a ++ b ++ c = a ++ (b ++ c) :=
  String.ext (by simp [String.data_append, List.append_assoc])

theorem deployRun_sha (conf : Conf) (host cmdArg profile : Option String)
    (dry : Bool) (env : Env) :
    (deployRun conf host cmdArg profile dry env).sha = runSha env := by
  cases host <;> cases dry <;>
    simp [deployRun, runSha, apply_ite RunResult.sha]

theorem expanduserL_tilde (home l : List Char) :
    expanduserL home ('~' :: '/' :: l) = home ++ '/' :: l := by
  unfold expanduserL
  exact if_pos ⟨rfl, Or.inr rfl⟩

theorem expanduser_destRoot (home n : String) :
    expanduser home ("~/var/Builds/" ++ n) = home ++ "/var/Builds/" ++ n := by
  apply String.ext
  show expanduserL home.data ("~/var/Builds/" ++ n).data = _
  have h1 : ("~/var/Builds/" ++ n).data
      = '~' :: '/' :: ("var/Builds/".data ++ n.data) := rfl
  rw [h1, expanduserL_tilde]
  simp [String.data_append, List.append_assoc]

theorem expanduser_buildDir (home n br : String) :
    expanduser home ("~/var/Builds/" ++ n ++ "/branches/" ++ br)
      = home ++ "/var/Builds/" ++ n ++ "/branches/" ++ br := by
  apply String.ext
  show expanduserL home.data ("~/var/Builds/" ++ n ++ "/branches/" ++ br).data = _
  have h1 : ("~/var/Builds/" ++ n ++ "/branches/" ++ br).data
      = '~' :: '/' :: ((("var/Builds/".data ++ n.data) ++ "/branches/".data) ++ br.data) := by
    simp [String.data_append]
  rw [h1, expanduserL_tilde]
  simp [String.data_append, List.append_assoc]

theorem safeSubRun_plain_append (m : List (String × String)) (pre l : List Char)
    (h : ∀ c ∈ pre, c ≠ dollar) :
    safeSubRun m .plain (pre ++ l) = pre ++ safeSubRun m .plain l := by
  induction pre with
  | nil => rfl
  | cons c cs ih =>
    have hc : c ≠ dollar := h c (List.mem_cons_self c cs)
    have hcs : ∀ x ∈ cs, x ≠ dollar := fun x hx => h x (List.mem_cons_of_mem _ hx)
    simp [safeSubRun, hc, ih hcs]

theorem safeSubRun_braced_scan (m : List (String × String)) (post : List Char) :
    ∀ (mid acc : List Char), acc ≠ [] → (∀ c ∈ mid, isIdChar c = true) →
    safeSubRun m (.braced acc) (mid ++ rbrace :: post)
      = bracedOut m (mid.reverse ++ acc) ++ safeSubRun m .plain post := by
  intro mid
  induction mid with
  | nil =>
    intro acc hacc _
    cases acc with
    | nil => exact absurd rfl hacc
    | cons a as =>
      simp [safeSubRun, bracedCont, show isIdChar rbrace = false from by decide]
  | cons c cs ih =>
    intro acc hacc hmid
    have hc : isIdChar c = true := hmid c (List.mem_cons_self c cs)
    have h1 : bracedCont acc c = true := by
      cases acc with
      | nil => exact absurd rfl hacc
      | cons a as => simpa [bracedCont] using hc
    have ihx := ih (c :: acc) (by simp) (fun x hx => hmid x (List.mem_cons_of_mem _ hx))
    simp [safeSubRun, h1, ihx]

theorem safeSubRun_braced_token (m : List (String × String)) (c0 : Char)
    (cs post : List Char) (h0 : isIdStart c0 = true)
    (hcs : ∀ c ∈ cs, isIdChar c = true) :
    safeSubRun m .plain (dollar :: lbrace :: c0 :: (cs ++ rbrace :: post))
      = bracedOut m (cs.reverse ++ [c0]) ++ safeSubRun m .plain post := by
  have h1 : bracedCont [] c0 = true := by simpa [bracedCont] using h0
  have h2 : safeSubRun m .plain (dollar :: lbrace :: c0 :: (cs ++ rbrace :: post))
      = safeSubRun m (.braced []) (c0 :: (cs ++ rbrace :: post)) := by
    simp [safeSubRun, show lbrace ≠ dollar from by decide]
  rw [h2]
  have h3 : safeSubRun m (.braced []) (c0 :: (cs ++ rbrace :: post))
      = safeSubRun m (.braced [c0]) (cs ++ rbrace :: post) := by
    simp [safeSubRun, h1]
  rw [h3]
  simpa using safeSubRun_braced_scan m post cs [c0] (by simp) hcs

theorem safeSubRun_named_scan (m : List (String × String)) (stop : List Char)
    (hstop : stop = [] ∨ ∃ c rest, stop = c :: rest ∧ isIdChar c = false ∧ c ≠ dollar) :
    ∀ (mid acc : List Char), (∀ c ∈ mid, isIdChar c = true) →
    safeSubRun m (.named acc) (mid ++ stop)
      = namedOut m (mid.reverse ++ acc) ++ safeSubRun m .plain stop := by
  intro mid
  induction mid with
  | nil =>
    intro acc _
    rcases hstop with rfl | ⟨c, rest, rfl, hc, hd⟩
    · simp [safeSubRun]
    · simp [safeSubRun, hc, hd]
  | cons c cs ih =>
    intro acc hmid
    have hc : isIdChar c = true := hmid c (List.mem_cons_self c cs)
    have ihx := ih (c :: acc) (fun x hx => hmid x (List.mem_cons_of_mem _ hx))
    simp [safeSubRun, hc, ihx]

theorem safeSubRun_named_token (m : List (String × String)) (c0 : Char)
    (cs stop : List Char) (h0 : isIdStart c0 = true)
    (hcs : ∀ c ∈ cs, isIdChar c = true)
    (hstop : stop = [] ∨ ∃ c rest, stop = c :: rest ∧ isIdChar c = false ∧ c ≠ dollar) :
    safeSubRun m .plain (dollar :: c0 :: (cs ++ stop))
      = namedOut m (cs.reverse ++ [c0]) ++ safeSubRun m .plain stop := by
  have hnd : c0 ≠ dollar := fun h => by subst h; exact absurd h0 (by decide)
  have hnl : c0 ≠ lbrace := fun h => by subst h; exact absurd h0 (by decide)
  have h2 : safeSubRun m .plain (dollar :: c0 :: (cs ++ stop))
      = safeSubRun m (.named [c0]) (cs ++ stop) := by
    simp [safeSubRun, hnd, hnl, h0]
  rw [h2]
  simpa using safeSubRun_named_scan m stop hstop cs [c0] hcs

/-! ### Claim theorems -/

/-- C5: with the dry-run flag set, a run performs no build-script execution
and no notification; it ends right after the diff archive and the sync, with
no error. -/
theorem c5_dry_run_skips_build_and_notify (conf : Conf)
    (host cmdArg profile : Option String) (env : Env) :
    ((deployRun conf host cmdArg profile true env).events.filter
        (fun e => e.isBuildRun || e.isNotice) = [])
    ∧ (∃ p members target, (deployRun conf host cmdArg profile true env).events
        = [Event.savedDiff p members, Event.synced target])
    ∧ (deployRun conf host cmdArg profile true env).err = none := by
  cases host <;> exact ⟨rfl, ⟨_, _, _, rfl⟩, rfl⟩

/-- C6: a non-zero build exit aborts the run with a build-failure error, no
notification happens and the process exit is non-zero; conversely a
notification only ever happens right after a build that exited with 0. -/
theorem c6_build_failure_blocks_notification (conf : Conf)
    (host cmdArg profile : Option String) (env : Env) :
    (env.buildExit ≠ 0 →
      (deployRun conf host cmdArg profile false env).err
          = some (DeployError.buildFailed env.buildExit)
        ∧ (deployRun conf host cmdArg profile false env).events.filter Event.isNotice = []
        ∧ runExit (deployRun conf host cmdArg profile false env) ≠ 0)
    ∧ ((deployRun conf host cmdArg profile false env).events.filter Event.isNotice ≠ [] →
      env.buildExit = 0
        ∧ ∃ l script msg, (deployRun conf host cmdArg profile false env).events
            = l ++ [Event.ranBuild script host, Event.notified conf.name msg]) := by
  cases host <;> by_cases hb : env.buildExit = 0 <;>
    simp [deployRun, runExit, Event.isNotice, hb] <;>
    exact ⟨[_, _], _, _, rfl⟩

/-- Witness for C6 at a concrete failing build (exit 2) and a concrete
successful one. -/
theorem c6_build_failure_blocks_notification_witness :
    ((deployRun conf0 none none none false envFail).err
        = some (DeployError.buildFailed 2)
      ∧ (deployRun conf0 none none none false envFail).events.filter Event.isNotice = []
      ∧ runExit (deployRun conf0 none none none false envFail) ≠ 0)
    ∧ (envOk.buildExit = 0
      ∧ ∃ l script msg, (deployRun conf0 none none none false envOk).events
          = l ++ [Event.ranBuild script none, Event.notified conf0.name msg]) :=
  ⟨(c6_build_failure_blocks_notification conf0 none none none envFail).1 (by decide),
   (c6_build_failure_blocks_notification conf0 none none none envOk).2 (by decide)⟩

/-- C8: the deployment identifier depends only on the (stripped) mainline
reference and the diff text; all other configuration and run inputs are
irrelevant, so equal mainline and diff always give equal identifiers. -/
theorem c8_identifier_deterministic
    (conf1 conf2 : Conf) (host1 host2 cmdArg1 cmdArg2 profile1 profile2 : Option String)
    (dry1 dry2 : Bool) (env1 env2 : Env)
    (hm : pyStrip env1.mainlineOut = pyStrip env2.mainlineOut)
    (hd : env1.diffOut = env2.diffOut) :
    (deployRun conf1 host1 cmdArg1 profile1 dry1 env1).sha
      = (deployRun conf2 host2 cmdArg2 profile2 dry2 env2).sha := by
  rw [deployRun_sha, deployRun_sha]
  unfold runSha
  rw [hm, hd]

/-- Witness for C8: two runs differing in configuration, host, override,
profile and dry flag, but with equal mainline and diff, agree. -/
theorem c8_identifier_deterministic_witness :
    (deployRun conf0 (some "h") none none false envOk).sha
      = (deployRun { conf0 with name := "other" } none (some "ninja") (some "p") true
          { envOk with home := "/root", branchOut := "b2\n" }).sha :=
  c8_identifier_deterministic _ _ _ _ _ _ _ _ _ _ _ _ rfl rfl

/-- C1 (amended): a blank diff yields the 7-character mainline short-hash as
identifier; a diff with any non-whitespace byte yields the first 7 hex
characters of the SHA-1 of the canonical text (header line plus diff body
repr). -/
theorem c1_identifier_from_diff (conf : Conf) (host cmdArg profile : Option String)
    (dry : Bool) (env : Env) :
    (pyStrip env.diffOut = "" →
      (deployRun conf host cmdArg profile dry env).sha = pyTake (pyStrip env.mainlineOut) 7)
    ∧ (pyStrip env.diffOut ≠ "" →
      (deployRun conf host cmdArg profile dry env).sha
        = pyTake (sha1hex (canonicalDiffText (pyStrip env.mainlineOut) env.diffOut)) 7) := by
  rw [deployRun_sha]
  unfold runSha get_diff canonicalDiffText
  constructor <;> intro h <;> simp [h]

/-- Witness for C1 at a concrete blank diff and a concrete non-blank one. -/
theorem c1_identifier_from_diff_witness :
    (pyStrip envOk.diffOut = ""
      ∧ (deployRun conf0 none none none false envOk).sha = pyTake (pyStrip envOk.mainlineOut) 7)
    ∧ (pyStrip envDiff.diffOut ≠ ""
      ∧ (deployRun conf0 none none none false envDiff).sha
          = pyTake (sha1hex (canonicalDiffText (pyStrip envDiff.mainlineOut) envDiff.diffOut)) 7) :=
  ⟨⟨by decide, (c1_identifier_from_diff conf0 none none none false envOk).1 (by decide)⟩,
   ⟨by decide, (c1_identifier_from_diff conf0 none none none false envDiff).2 (by decide)⟩⟩

/-- Counterexample to C1 as stated: the diff consisting of a single space is
non-empty, yet the identifier is the mainline short-hash, not a prefix of
the SHA-1 of the canonical text. -/
theorem c1_counterexample :
    envWs.diffOut ≠ ""
    ∧ (deployRun conf0 none none none false envWs).sha = "0000000"
    ∧ pyTake (sha1hex (canonicalDiffText (pyStrip envWs.mainlineOut) envWs.diffOut)) 7
        ≠ "0000000" :=
  ⟨by decide, by decide, by decide⟩

/-- C10: the destination root is the fixed `~/var/Builds/{name}` (expanded
against the home directory in local runs) and the build prefix is
`{destination-root}/branches/{branch}`; a configured destination setting is
never consulted, so changing it changes nothing. -/
theorem c10_fixed_destination (conf : Conf) (d : Option String)
    (host cmdArg profile : Option String) (dry : Bool) (env : Env) :
    deployRun { conf with destSetting := d } host cmdArg profile dry env
        = deployRun conf host cmdArg profile dry env
    ∧ (∀ h, host = some h →
        (deployRun conf host cmdArg profile dry env).destRoot = "~/var/Builds/" ++ conf.name
        ∧ (deployRun conf host cmdArg profile dry env).buildDir
            = (deployRun conf host cmdArg profile dry env).destRoot ++ "/branches/"
              ++ branchLabel profile env.branchOut)
    ∧ (host = none →
        (deployRun conf host cmdArg profile dry env).destRoot
            = env.home ++ "/var/Builds/" ++ conf.name
        ∧ (deployRun conf host cmdArg profile dry env).buildDir
            = (deployRun conf host cmdArg profile dry env).destRoot ++ "/branches/"
              ++ branchLabel profile env.branchOut) := by
  refine ⟨rfl, ?_, ?_⟩
  · rintro h rfl
    cases dry <;>
      simp [deployRun, destRootOf, buildDirOf,
        apply_ite RunResult.destRoot, apply_ite RunResult.buildDir, strAppend_assoc]
  · rintro rfl
    cases dry <;>
      simp [deployRun, destRootOf, buildDirOf,
        apply_ite RunResult.destRoot, apply_ite RunResult.buildDir,
        expanduser_destRoot, expanduser_buildDir, strAppend_assoc]

/-- Witness for C10 at concrete remote and local runs. -/
theorem c10_fixed_destination_witness :
    ((deployRun conf0 (some "h") none none false envOk).destRoot
        = "~/var/Builds/" ++ conf0.name
      ∧ (deployRun conf0 (some "h") none none false envOk).buildDir
          = (deployRun conf0 (some "h") none none false envOk).destRoot ++ "/branches/"
            ++ branchLabel none envOk.branchOut)
    ∧ ((deployRun conf0 none none none false envOk).destRoot
        = envOk.home ++ "/var/Builds/" ++ conf0.name) :=
  ⟨(c10_fixed_destination conf0 none (some "h") none none false envOk).2.1 "h" rfl,
   ((c10_fixed_destination conf0 none none none none false envOk).2.2 rfl).1⟩

/-- C2 (amended): every run, dry or not, local or remote, empty diff or not,
archives exactly one diff, at `{home}/Archive/diffs/{name}-{id}.diff.tar.gz`
— a fixed directory, not a configured one — and the archive holds the single
member `diff` with the whole diff text. -/
theorem c2_one_archive_fixed_dir (conf : Conf) (host cmdArg profile : Option String)
    (dry : Bool) (env : Env) :
    (deployRun conf host cmdArg profile dry env).events.filter Event.isSave
      = [Event.savedDiff
          (env.home ++ "/Archive/diffs/" ++ conf.name ++ "-" ++ runSha env ++ ".diff.tar.gz")
          [("diff", (get_diff (pyStrip env.mainlineOut) env.diffOut).2)]] := by
  have hp : ∀ s : String,
      (env.home ++ "/Archive/diffs") ++ "/" ++ (conf.name ++ "-" ++ s) ++ ".diff.tar.gz"
        = env.home ++ "/Archive/diffs/" ++ conf.name ++ "-" ++ s ++ ".diff.tar.gz" :=
    fun s => String.ext (by simp [String.data_append, List.append_assoc])
  cases host <;> cases dry <;> by_cases hb : env.buildExit = 0 <;>
    simp [deployRun, save_diff, runSha, Event.isSave, hb] <;>
    exact hp _

/-- Counterexample to C2 as stated: with a configured diff directory
`/custom/diffs`, the archive still lands in the fixed `~/Archive/diffs`. -/
theorem c2_counterexample :
    (deployRun confCustom none none none false envOk).events.filter Event.isSave
      = [Event.savedDiff "/home/u/Archive/diffs/app-abc1234.diff.tar.gz"
          [("diff", "master: abc1234def\n")]]
    ∧ "/home/u/Archive/diffs/app-abc1234.diff.tar.gz"
        ≠ "/custom/diffs/app-abc1234.diff.tar.gz" :=
  ⟨by decide, by decide⟩

/-- C3: `get_diff` appends `str(diff)` — the Python repr of the bytes — so
the archived text is the `b'...'`-escaped form, not the raw diff body. -/
theorem c3_archive_text_is_bytes_repr :
    (get_diff "m" "x").2 = "master: m\nb\x27x\x27"
    ∧ (get_diff "m" "x").2 ≠ "master: m\nx" :=
  ⟨by decide, by decide⟩

/-- C7: the assembled build script consists of exactly the claimed statements
in the claimed order, and the rendered script is their newline join after
substitution. -/
theorem c7_script_statement_order (conf : Conf) (cmd bdir : String) :
    buildScriptRawLines conf cmd bdir = buildScriptSpecLines conf cmd bdir
    ∧ ∀ dest sha top branch, renderScript conf cmd dest bdir sha top branch
        = safeSubstituteStr (deployMapping dest bdir sha top branch)
            (String.intercalate "\n" (buildScriptSpecLines conf cmd bdir)) := by
  have h : buildScriptRawLines conf cmd bdir = buildScriptSpecLines conf cmd bdir := by
    unfold buildScriptRawLines buildScriptSpecLines
    cases conf.prebuild <;> cases conf.postbuild <;> simp
  exact ⟨h, fun dest sha top branch => by unfold renderScript; rw [h]⟩

/-- C4 (amended): a `${name}` occurrence of a bound placeholder (the mapping
always binds PREFIX, SHA, TOP, BRANCH and DEST, in remote runs too) is
replaced by its value, an unknown placeholder is left verbatim, and a remote
run renders its script through the full five-entry mapping. -/
theorem c4_template_substitution (dest bdir sha top branch : String) :
    (∀ (pre post : List Char) (c0 : Char) (cs : List Char) (v : String),
      (∀ c ∈ pre, c ≠ dollar) → isIdStart c0 = true → (∀ c ∈ cs, isIdChar c = true) →
      lookupVar (deployMapping dest bdir sha top branch) (String.mk (c0 :: cs)) = some v →
      safeSubRun (deployMapping dest bdir sha top branch) .plain
          (pre ++ dollar :: lbrace :: c0 :: (cs ++ rbrace :: post))
        = pre ++ v.data
          ++ safeSubRun (deployMapping dest bdir sha top branch) .plain post)
    ∧ (∀ (pre post : List Char) (c0 : Char) (cs : List Char),
      (∀ c ∈ pre, c ≠ dollar) → isIdStart c0 = true → (∀ c ∈ cs, isIdChar c = true) →
      lookupVar (deployMapping dest bdir sha top branch) (String.mk (c0 :: cs)) = none →
      safeSubRun (deployMapping dest bdir sha top branch) .plain
          (pre ++ dollar :: lbrace :: c0 :: (cs ++ rbrace :: post))
        = pre ++ (dollar :: lbrace :: c0 :: (cs ++ [rbrace]))
          ++ safeSubRun (deployMapping dest bdir sha top branch) .plain post)
    ∧ lookupVar (deployMapping dest bdir sha top branch) "DEST" = some dest
    ∧ (∀ (conf : Conf) (h : String) (cmdArg profile : Option String) (env : Env),
      (deployRun conf (some h) cmdArg profile false env).events.filter Event.isBuildRun
        = [Event.ranBuild
            (renderScript conf (chosenCmd cmdArg conf) (destRootOf conf)
              (buildDirOf conf profile env) (runSha env) conf.top
              (branchLabel profile env.branchOut))
            (some h)]) := by
  refine ⟨?_, ?_, rfl, ?_⟩
  · intro pre post c0 cs v hpre h0 hcs hv
    rw [safeSubRun_plain_append _ _ _ hpre, safeSubRun_braced_token _ _ _ _ h0 hcs]
    simp [bracedOut, hv]
  · intro pre post c0 cs hpre h0 hcs hv
    rw [safeSubRun_plain_append _ _ _ hpre, safeSubRun_braced_token _ _ _ _ h0 hcs]
    simp [bracedOut, hv]
  · intro conf h cmdArg profile env
    by_cases hb : env.buildExit = 0 <;>
      simp [deployRun, Event.isBuildRun, hb, destRootOf, buildDirOf, runSha]

/-- Witness for C4: `${SHA}` is substituted, `${UNKNOWN}` is left verbatim,
`DEST` is bound, and a concrete remote run renders through the mapping. -/
theorem c4_template_substitution_witness :
    (safeSubRun (deployMapping "D" "B" "S1" "T" "R") .plain
        ([] ++ dollar :: lbrace :: 'S' :: ("HA".data ++ rbrace :: []))
      = [] ++ "S1".data ++ safeSubRun (deployMapping "D" "B" "S1" "T" "R") .plain [])
    ∧ (safeSubRun (deployMapping "D" "B" "S1" "T" "R") .plain
        ([] ++ dollar :: lbrace :: 'U' :: ("NKNOWN".data ++ rbrace :: []))
      = [] ++ (dollar :: lbrace :: 'U' :: ("NKNOWN".data ++ [rbrace]))
        ++ safeSubRun (deployMapping "D" "B" "S1" "T" "R") .plain [])
    ∧ lookupVar (deployMapping "D" "B" "S1" "T" "R") "DEST" = some "D"
    ∧ (deployRun conf0 (some "h") none none false envOk).events.filter Event.isBuildRun
      = [Event.ranBuild
          (renderScript conf0 (chosenCmd none conf0) (destRootOf conf0)
            (buildDirOf conf0 none envOk) (runSha envOk) conf0.top
            (branchLabel none envOk.branchOut))
          (some "h")] :=
  ⟨(c4_template_substitution "D" "B" "S1" "T" "R").1 [] [] 'S' "HA".data "S1"
      (by simp) (by decide) (by decide) (by decide),
   (c4_template_substitution "D" "B" "S1" "T" "R").2.1 [] [] 'U' "NKNOWN".data
      (by simp) (by decide) (by decide) (by decide),
   (c4_template_substitution "D" "B" "S1" "T" "R").2.2.1,
   (c4_template_substitution "D" "B" "S1" "T" "R").2.2.2 conf0 "h" none none envOk⟩

/-- Counterexample to C4 as stated: in a remote run, `${DEST}` in the
pre-build hook is substituted (with the unexpanded destination), not left
verbatim. -/
theorem c4_counterexample :
    (deployRun confDest (some "r") none none false envOk).events.filter Event.isBuildRun
      = [Event.ranBuild
          "set -e\n~/var/Builds/app\necho \x27Building with \x60make\x60...\x27\npushd ~/var/Builds/app/branches/dev\nmake\npopd"
          (some "r")]
    ∧ "set -e\n~/var/Builds/app\necho \x27Building with \x60make\x60...\x27\npushd ~/var/Builds/app/branches/dev\nmake\npopd"
      ≠ "set -e\n${DEST}\necho \x27Building with \x60make\x60...\x27\npushd ~/var/Builds/app/branches/dev\nmake\npopd" :=
  ⟨by decide, by decide⟩

/-! ### Lemmas for the rsync file list (C9) -/

theorem pySplitWsGo_nows (l : List Char) (hl : ∀ c ∈ l, isPyWs c = false) :
    ∀ cur : List Char,
      pySplitWsGo cur l = if cur.reverse ++ l = [] then [] else [cur.reverse ++ l] := by
  induction l with
  | nil => intro cur; cases cur <;> simp [pySplitWsGo]
  | cons a l ih =>
    intro cur
    have ha : isPyWs a = false := hl a (List.mem_cons_self a l)
    have hl' : ∀ c ∈ l, isPyWs c = false := fun c hc => hl c (List.mem_cons_of_mem _ hc)
    simp [pySplitWsGo, ha, ih hl' (a :: cur), List.append_assoc]

theorem pySplitWsGo_token (q : List Char) :
    ∀ (n cur : List Char), (∀ c ∈ n, isPyWs c = false) → cur.reverse ++ n ≠ [] →
      pySplitWsGo cur (n ++ nlChar :: q) = (cur.reverse ++ n) :: pySplitWsGo [] q := by
  intro n
  induction n with
  | nil =>
    intro cur _ hne
    have hcur : ¬ cur.isEmpty := by
      cases cur <;> simp at hne ⊢
    simp [pySplitWsGo, isPyWs, hcur]
  | cons a n' ih =>
    intro cur hn hne
    have ha : isPyWs a = false := hn a (List.mem_cons_self a n')
    have hstep := ih (a :: cur) (fun c hc => hn c (List.mem_cons_of_mem _ hc)) (by simp)
    simp [pySplitWsGo, ha, hstep, List.append_assoc]

theorem pySplitWs_join (names : List (List Char))
    (h : ∀ n ∈ names, n ≠ [] ∧ ∀ c ∈ n, isPyWs c = false) :
    pySplitWs (joinWith nlChar names) = names := by
  induction names with
  | nil => rfl
  | cons n ns ih =>
    have hn := h n (List.mem_cons_self n ns)
    have hns : ∀ m ∈ ns, m ≠ [] ∧ ∀ c ∈ m, isPyWs c = false :=
      fun m hm => h m (List.mem_cons_of_mem _ hm)
    cases ns with
    | nil =>
      show pySplitWsGo [] (joinWith nlChar [n]) = [n]
      simp [joinWith, pySplitWs, pySplitWsGo_nows n hn.2 [], hn.1]
    | cons m ms =>
      show pySplitWsGo [] (n ++ nlChar :: joinWith nlChar (m :: ms)) = n :: m :: ms
      rw [pySplitWsGo_token _ n [] hn.2 (by simpa using hn.1)]
      simpa using ih hns

theorem splitOnChar_ne_nil (c : Char) (l : List Char) : splitOnChar c l ≠ [] := by
  induction l with
  | nil => simp [splitOnChar]
  | cons a rest ih =>
    simp only [splitOnChar]
    cases h : splitOnChar c rest with
    | nil => simp
    | cons g gs => by_cases hac : a = c <;> simp [hac]

theorem splitOnChar_not_mem (c : Char) (l : List Char) (h : c ∉ l) :
    splitOnChar c l = [l] := by
  induction l with
  | nil => rfl
  | cons a rest ih =>
    have hac : a ≠ c := fun hx => h (hx ▸ List.mem_cons_self a rest)
    have hr : c ∉ rest := fun hx => h (List.mem_cons_of_mem _ hx)
    simp [splitOnChar, ih hr, hac]

theorem splitOnChar_append_sep (c : Char) (l r : List Char) :
    splitOnChar c (l ++ c :: r) = splitOnChar c l ++ splitOnChar c r := by
  induction l with
  | nil =>
    cases h : splitOnChar c r with
    | nil => exact absurd h (splitOnChar_ne_nil c r)
    | cons g gs => simp [splitOnChar, h]
  | cons a l' ih =>
    cases h : splitOnChar c (l' ++ c :: r) with
    | nil => exact absurd h (splitOnChar_ne_nil c _)
    | cons g gs =>
      cases h' : splitOnChar c l' with
      | nil => exact absurd h' (splitOnChar_ne_nil c l')
      | cons g' gs' =>
        have hgg : g :: gs = (g' :: gs') ++ splitOnChar c r := by
          rw [← h, ← h', ih]
        simp only [List.cons_append, List.cons.injEq] at hgg
        by_cases hac : a = c <;>
          simp [splitOnChar, h, h', hac, hgg.1, hgg.2]

theorem mem_of_mem_splitOnChar (c : Char) (l : List Char) :
    ∀ p ∈ splitOnChar c l, ∀ x ∈ p, x ∈ l := by
  induction l with
  | nil => intro p hp x hx; simp [splitOnChar] at hp; simp [hp] at hx
  | cons a rest ih =>
    intro p hp x hx
    rcases hg : splitOnChar c rest with _ | ⟨g, gs⟩
    · exact absurd hg (splitOnChar_ne_nil c rest)
    · replace hp : p ∈ (if a = c then [] :: g :: gs else (a :: g) :: gs) := by
        rw [splitOnChar, hg] at hp
        exact hp
      by_cases hac : a = c
      · rw [if_pos hac] at hp
        rcases List.mem_cons.1 hp with rfl | hp'
        · simp at hx
        · exact List.mem_cons_of_mem _ (ih p (hg ▸ hp') x hx)
      · rw [if_neg hac] at hp
        rcases List.mem_cons.1 hp with rfl | hp'
        · rcases List.mem_cons.1 hx with rfl | hxg
          · exact List.mem_cons_self x rest
          · exact List.mem_cons_of_mem _ (ih g (hg ▸ List.mem_cons_self g gs) x hxg)
        · exact List.mem_cons_of_mem _ (ih p (hg ▸ List.mem_cons_of_mem _ hp') x hx)

theorem mem_joinWith (c : Char) :
    ∀ (ls : List (List Char)), ∀ x ∈ joinWith c ls, x = c ∨ ∃ p ∈ ls, x ∈ p := by
  intro ls
  induction ls with
  | nil => intro x hx; simp [joinWith] at hx
  | cons p qs ih =>
    intro x hx
    cases qs with
    | nil => exact Or.inr ⟨p, List.mem_cons_self p [], by simpa [joinWith] using hx⟩
    | cons q rest =>
      rw [joinWith] at hx
      rcases List.mem_append.1 hx with hxp | hxr
      · exact Or.inr ⟨p, List.mem_cons_self p _, hxp⟩
      · rcases List.mem_cons.1 hxr with rfl | hxj
        · exact Or.inl rfl
        · rcases ih x hxj with rfl | ⟨p', hp', hxp'⟩
          · exact Or.inl rfl
          · exact Or.inr ⟨p', List.mem_cons_of_mem _ hp', hxp'⟩

theorem splitOnChar_joinWith (c : Char) :
    ∀ (ls : List (List Char)), ls ≠ [] →
      splitOnChar c (joinWith c ls) = ls.flatMap (splitOnChar c) := by
  intro ls
  induction ls with
  | nil => intro h; exact absurd rfl h
  | cons p qs ih =>
    intro _
    cases qs with
    | nil => simp [joinWith]
    | cons q rest =>
      rw [joinWith, splitOnChar_append_sep, ih (by simp)]
      simp

theorem parentsOf_nonempty_nows (n : List Char) (hn : ∀ c ∈ n, isPyWs c = false) :
    ∀ d ∈ parentsOf n, d ≠ [] ∧ ∀ x ∈ d, isPyWs x = false := by
  intro d hd
  obtain ⟨k, _, rfl⟩ := List.mem_map.1 hd
  cases htake : (pathComps n).take k with
  | nil => exact ⟨by simp [joinComps], by simp [joinComps]; decide⟩
  | cons c0 cs =>
    have hsub : ∀ p ∈ c0 :: cs, p ∈ pathComps n := by
      intro p hp
      exact List.take_subset k _ (htake ▸ hp)
    have hcomp : ∀ p ∈ pathComps n, p ≠ [] ∧ ∀ x ∈ p, isPyWs x = false := by
      intro p hp
      have hfil := List.mem_filter.1 hp
      refine ⟨?_, ?_⟩
      · intro hpe
        subst hpe
        simp at hfil
      · intro x hx
        exact hn x (mem_of_mem_splitOnChar slash n p hfil.1 x hx)
    constructor
    · show joinComps (c0 :: cs) ≠ []
      rw [joinComps]
      cases cs with
      | nil => simpa [joinWith] using (hcomp c0 (hsub c0 (List.mem_cons_self c0 []))).1
      | cons c1 cs' =>
        rw [joinWith]
        rcases hc0 : c0 with _ | ⟨y, ys⟩
        · simp
        · simp
    · intro x hx
      rw [joinComps] at hx
      rcases mem_joinWith slash (c0 :: cs) x hx with rfl | ⟨p, hp, hxp⟩
      · decide
      · exact (hcomp p (hsub p hp)).2 x hxp

/-- C9: for whitespace-free tracked names the path list handed to rsync is
exactly the names plus every parent directory of each name; the list is
built by whitespace-splitting the `git ls-files` output, so a name with a
space is split into separate entries. -/
theorem c9_file_list_whitespace_split :
    (∀ (names : List (List Char)),
      (∀ n ∈ names, n ≠ [] ∧ ∀ c ∈ n, isPyWs c = false) →
      ∀ x, x ∈ gitRsyncHandedPaths (joinWith nlChar names)
        ↔ (x ∈ names ∨ ∃ n ∈ names, x ∈ parentsOf n))
    ∧ pySplitWs "a b.txt".data = ["a".data, "b.txt".data] := by
  constructor
  · intro names h x
    simp only [gitRsyncHandedPaths, gitRsyncStdin, gitRsyncEntries]
    rw [pySplitWs_join names h]
    by_cases hnil : names = []
    · subst hnil
      simp [joinWith, splitOnChar]
    · have hents : names ++ ((names.flatMap parentsOf).dedup).map (fun d => d ++ [nlChar]) ≠ [] := by
        cases names with
        | nil => exact absurd rfl hnil
        | cons a as => simp
      rw [splitOnChar_joinWith _ _ hents]
      constructor
      · intro hx
        rw [List.mem_filter] at hx
        obtain ⟨hmem, hpred⟩ := hx
        rw [List.mem_flatMap] at hmem
        obtain ⟨e, he, hxe⟩ := hmem
        rcases List.mem_append.1 he with hen | hed
        · left
          have hnl : nlChar ∉ e := by
            intro hc
            have := (h e hen).2 nlChar hc
            simp [isPyWs] at this
          rw [splitOnChar_not_mem _ _ hnl] at hxe
          simp at hxe
          exact hxe ▸ hen
        · obtain ⟨d, hd, rfl⟩ := List.mem_map.1 hed
          have hd' := List.mem_dedup.1 hd
          obtain ⟨n, hn, hdn⟩ := List.mem_flatMap.1 hd'
          have hdp := parentsOf_nonempty_nows n (h n hn).2 d hdn
          have hnl : nlChar ∉ d := by
            intro hc
            have := hdp.2 nlChar hc
            simp [isPyWs] at this
          have hsplit : splitOnChar nlChar (d ++ [nlChar]) = [d, []] := by
            have hs := splitOnChar_append_sep nlChar d []
            simpa [splitOnChar_not_mem _ _ hnl, splitOnChar] using hs
          rw [hsplit] at hxe
          rcases List.mem_cons.1 hxe with rfl | hxe2
          · exact Or.inr ⟨n, hn, hdn⟩
          · simp at hxe2
            subst hxe2
            simp at hpred
      · intro hx
        rw [List.mem_filter, List.mem_flatMap]
        rcases hx with hxn | ⟨n, hn, hxp⟩
        · have hnl : nlChar ∉ x := by
            intro hc
            have := (h x hxn).2 nlChar hc
            simp [isPyWs] at this
          refine ⟨⟨x, List.mem_append_left _ hxn, ?_⟩, ?_⟩
          · rw [splitOnChar_not_mem _ _ hnl]
            simp
          · simpa using (h x hxn).1
        · have hdd : x ∈ (names.flatMap parentsOf).dedup :=
            List.mem_dedup.2 (List.mem_flatMap.2 ⟨n, hn, hxp⟩)
          have hdp := parentsOf_nonempty_nows n (h n hn).2 x hxp
          have hnl : nlChar ∉ x := by
            intro hc
            have := hdp.2 nlChar hc
            simp [isPyWs] at this
          have hsplit : splitOnChar nlChar (x ++ [nlChar]) = [x, []] := by
            have hs := splitOnChar_append_sep nlChar x []
            simpa [splitOnChar_not_mem _ _ hnl, splitOnChar] using hs
          refine ⟨⟨x ++ [nlChar], List.mem_append_right _ (List.mem_map.2 ⟨x, hdd, rfl⟩), ?_⟩, ?_⟩
          · rw [hsplit]
            simp
          · simpa using hdp.1
  · decide

/-- Witness for C9: for tracked files `a.txt` and `sub/b.txt`, the handed
list contains the directory `sub`. -/
theorem c9_file_list_whitespace_split_witness :
    (∀ n ∈ ["a.txt".data, "sub/b.txt".data], n ≠ [] ∧ ∀ c ∈ n, isPyWs c = false)
    ∧ "sub".data ∈ gitRsyncHandedPaths (joinWith nlChar ["a.txt".data, "sub/b.txt".data]) := by
  have hyp : ∀ n ∈ ["a.txt".data, "sub/b.txt".data], n ≠ [] ∧ ∀ c ∈ n, isPyWs c = false := by
    decide
  exact ⟨hyp,
    (c9_file_list_whitespace_split.1 ["a.txt".data, "sub/b.txt".data] hyp "sub".data).mpr
      (Or.inr ⟨"sub/b.txt".data, by decide, by decide⟩)⟩

end Deployer
